import Mathlib

/-!
Shallow embedding of the project-matching service in
src/backend/app/services/embeddings.py (class EmbeddingService) together with
the data model from src/backend/app/models/project.py.

Modelling conventions:
- Python floats are modelled as exact rationals; the numeric literals of the
  source appear verbatim as rational literals.
- Python strings are modelled as Lean strings; str.lower / str.strip / str.split
  are modelled for the ASCII range (the repository's technology names, alias
  table and job texts are ASCII).
- Python dicts built from key/value sequences are modelled as association lists
  where a lookup returns the value of the last matching key, as Python dict
  construction lets later keys overwrite earlier ones.
- The sentence-transformers encoder and the FAISS vector index hold opaque
  ML state; the result of index.search(job_embedding, search_k) is therefore a
  parameter (an oracle producing (similarity, index) rows), and the Gemini job
  extraction result is a parameter of type JobInfo.  Everything downstream of
  those two external calls is translated from the source.
- Fallible dictionary and index accesses and raised exceptions are modelled
  with Except String, mirroring the re-raise at the end of
  find_matching_projects.
-/

/-! ### ASCII model of Python string primitives -/

/-- Uppercase-to-lowercase pairs for the ASCII letters, used to model
Python str.lower on the ASCII range. -/
def lowerMap : List (Char × Char) :=
  [('A','a'), ('B','b'), ('C','c'), ('D','d'), ('E','e'), ('F','f'), ('G','g'),
   ('H','h'), ('I','i'), ('J','j'), ('K','k'), ('L','l'), ('M','m'), ('N','n'),
   ('O','o'), ('P','p'), ('Q','q'), ('R','r'), ('S','s'), ('T','t'), ('U','u'),
   ('V','v'), ('W','w'), ('X','x'), ('Y','y'), ('Z','z')]

/-- Lowercase a single character (ASCII model of str.lower). -/
def pyCharLower (c : Char) : Char :=
  (lowerMap.lookup c).getD c

/-- Whitespace characters stripped by str.strip (ASCII model). -/
def isSpacePy (c : Char) : Bool :=
  c = ' ' || c = '\t' || c = '\n' || c = '\r' || c = '\x0b' || c = '\x0c'

/-- Lowercase a character list. -/
def lowerChars (l : List Char) : List Char :=
  l.map pyCharLower

/-- Remove trailing whitespace from a character list. -/
def dropTrail (l : List Char) : List Char :=
  (l.reverse.dropWhile isSpacePy).reverse

/-- Remove leading and trailing whitespace from a character list
(model of str.strip). -/
def stripChars (l : List Char) : List Char :=
  dropTrail (l.dropWhile isSpacePy)

/-- Model of Python str.lower on strings. -/
def pyLower (s : String) : String :=
  ⟨lowerChars s.data⟩

/-- Model of Python str.strip on strings. -/
def pyStrip (s : String) : String :=
  ⟨stripChars s.data⟩

/-! ### Technology normalization (embeddings.py, tech_normalize and
_normalize_technologies) -/

/-- The static alias table self.tech_normalize from EmbeddingService.__init__. -/
def tech_normalize : List (String × String) :=
  [("react.js", "react"), ("reactjs", "react"), ("react js", "react"),
   ("node.js", "nodejs"), ("node js", "nodejs"),
   ("vue.js", "vue"), ("vuejs", "vue"),
   ("angular.js", "angular"), ("angularjs", "angular"),
   ("javascript", "js"), ("typescript", "ts"),
   ("python3", "python"), ("py", "python"),
   ("postgresql", "postgres"), ("postgressql", "postgres"),
   ("mongodb", "mongo"), ("mongoose", "mongo"),
   ("express.js", "express"), ("expressjs", "express"),
   ("next.js", "nextjs"), ("nuxt.js", "nuxtjs")]

/-- One step of _normalize_technologies: tech.lower().strip() followed by the
alias-table lookup self.tech_normalize.get(tech_lower, tech_lower). -/
def normTech (s : String) : String :=
  let tech_lower := pyStrip (pyLower s)
  (tech_normalize.lookup tech_lower).getD tech_lower

/-- Loop of _normalize_technologies: the accumulator is the list named
normalized in the source; a normalized name is appended when it is non-empty
and not already present. -/
def normAux : List String → List String → List String
  | [], acc => acc
  | t :: ts, acc =>
      let n := normTech t
      if n ≠ "" ∧ n ∉ acc then normAux ts (acc ++ [n]) else normAux ts acc

/-- EmbeddingService._normalize_technologies. -/
def normalize_technologies (technologies : List String) : List String :=
  normAux technologies []

/-! ### Data model (app/models/project.py) -/

/-- Project (pydantic model).  created_at is held as an Option of a unix
timestamp in seconds; none models an absent timestamp (the falsy case of the
source's check of project.created_at). -/
structure Project where
  name : String
  suggested_name : Option String
  url : String
  description : String
  readme_content : String
  three_liner : String
  detailed_paragraph : String
  technologies : List String
  tree : List String
  bad_readme : Bool
  no_readme : Bool
  stars : Int
  forks : Int
  language : String
  created_at : Option Int
  updated_at : Option Int
  hidden_from_search : Bool
deriving DecidableEq

/-- MatchedProject (pydantic model): the shape of one find_matching_projects
result row. -/
structure MatchedProject where
  project : Project
  similarity_score : ℚ
deriving DecidableEq

/-! ### Component scores -/

/-- EmbeddingService._calculate_recency_score.  now is the value of
datetime.now(timezone.utc) as a unix timestamp in seconds; days_old is the
days attribute of the timedelta now - created_at, which floor-divides the
difference by 86400 seconds. -/
def calculate_recency_score (now : Int) (project : Project) : ℚ :=
  match project.created_at with
  | none => 0.5
  | some created =>
    let days_old : Int := Int.fdiv (now - created) 86400
    if days_old ≤ 30 then 1.0
    else if days_old ≤ 90 then 0.9
    else if days_old ≤ 180 then 0.8
    else if days_old ≤ 365 then 0.6
    else if days_old ≤ 730 then 0.4
    else 0.2

/-- Step function that the specification prescribes for a present timestamp:
age of at most 30 days scores 1.0, at most 90 scores 0.9, at most 180 scores
0.8, at most 365 scores 0.6, at most 730 scores 0.4, otherwise 0.2.  Stated
from the specification for comparison with calculate_recency_score. -/
def recencyStep_spec (days_old : Int) : ℚ :=
  if days_old ≤ 30 then 1.0
  else if days_old ≤ 90 then 0.9
  else if days_old ≤ 180 then 0.8
  else if days_old ≤ 365 then 0.6
  else if days_old ≤ 730 then 0.4
  else 0.2

/-- EmbeddingService._calculate_quality_score, translated branch for branch:
each of the three engagement chains is an if/elif chain that tests the lowest
tier first, exactly as in the source. -/
def calculate_quality_score (project : Project) : ℚ :=
  let score : ℚ := 1.0
  let score :=
    if project.no_readme then score * 0.5
    else if project.bad_readme then score * 0.8
    else score
  let score :=
    if project.stars > 10 then score * 1.2
    else if project.stars > 50 then score * 1.4
    else if project.stars > 100 then score * 1.6
    else score
  let score :=
    if project.forks > 5 then score * 1.1
    else if project.forks > 20 then score * 1.3
    else score
  let score :=
    if project.technologies.length > 3 then score * 1.1
    else if project.technologies.length > 6 then score * 1.2
    else score
  min score 2.0

/-- Quality score as the specification words it: the highest-qualifying
stars tier, the highest-qualifying forks tier and the larger technology bonus
are the ones applied.  Stated from the specification for comparison with
calculate_quality_score. -/
def qualityScore_spec (project : Project) : ℚ :=
  let score : ℚ := 1.0
  let score :=
    if project.no_readme then score * 0.5
    else if project.bad_readme then score * 0.8
    else score
  let score :=
    if project.stars > 100 then score * 1.6
    else if project.stars > 50 then score * 1.4
    else if project.stars > 10 then score * 1.2
    else score
  let score :=
    if project.forks > 20 then score * 1.3
    else if project.forks > 5 then score * 1.1
    else score
  let score :=
    if project.technologies.length > 6 then score * 1.2
    else if project.technologies.length > 3 then score * 1.1
    else score
  min score 2.0

/-- EmbeddingService._calculate_technology_overlap_score.  Python sets are
modelled with Finset String; note that the source normalizes only
project_techs and takes job_techs as given. -/
def calculate_technology_overlap_score (project_techs job_techs : List String) : ℚ :=
  if job_techs.isEmpty || project_techs.isEmpty then 0.0
  else
    let project_techs_norm := (normalize_technologies project_techs).toFinset
    let job_techs_norm := job_techs.toFinset
    let overlap := (project_techs_norm ∩ job_techs_norm).card
    let total_job_techs := job_techs_norm.card
    if total_job_techs = 0 then 0.0
    else
      let overlap_score : ℚ := (overlap : ℚ) / (total_job_techs : ℚ)
      let overlap_score :=
        if 0 < overlap ∧ total_job_techs ≤ project_techs_norm.card
        then overlap_score * 1.2 else overlap_score
      min overlap_score 1.5

/-- Technology overlap score as the specification words it: both inputs are
normalized before the sets are formed.  Stated from the specification for
comparison with calculate_technology_overlap_score. -/
def technologyOverlapScore_spec (project_techs job_techs : List String) : ℚ :=
  let project_techs_norm := (normalize_technologies project_techs).toFinset
  let job_techs_norm := (normalize_technologies job_techs).toFinset
  if job_techs_norm.card = 0 then 0.0
  else
    let overlap := (project_techs_norm ∩ job_techs_norm).card
    let overlap_score : ℚ := (overlap : ℚ) / (job_techs_norm.card : ℚ)
    let overlap_score :=
      if 0 < overlap ∧ job_techs_norm.card ≤ project_techs_norm.card
      then overlap_score * 1.2 else overlap_score
    min overlap_score 1.5

/-! ### Service state -/

/-- The dictionary self.embeddings_cache as filled by
generate_embeddings_for_projects (the embeddings entry itself only feeds the
FAISS index, which is abstracted by the search oracle). -/
structure Cache where
  projects : List (String × Project)
  project_names : List String
  recency_scores : List (String × ℚ)
  quality_scores : List (String × ℚ)
deriving DecidableEq

/-- In-memory state of EmbeddingService: self.index (none models index None;
some n models a FAISS index holding n vectors), self.project_mapping
(dict(enumerate(project_names)), modelled by the name list itself) and
self.embeddings_cache (none models the empty dict). -/
structure EmbState where
  index : Option Nat
  project_mapping : List String
  cache : Option Cache
deriving DecidableEq

/-- On-disk state of the two files written by _save_embeddings: both present
and readable, one or both absent, or present but unreadable/mismatched. -/
inductive DiskState where
  | missing : DiskState
  | corrupt : DiskState
  | good : Nat → List String → Cache → DiskState
deriving DecidableEq

/-- Combined state of the service process and its data directory. -/
structure SysState where
  mem : EmbState
  disk : DiskState
deriving DecidableEq

/-- A service that has just been constructed over an empty data directory. -/
def freshMem : EmbState := { index := none, project_mapping := [], cache := none }

/-- Accessing a key of the empty dict raises KeyError exactly as a lookup in
an empty association list fails, so the empty cache is read through empty
lists. -/
def cacheF : Option Cache → Cache
  | none => { projects := [], project_names := [], recency_scores := [], quality_scores := [] }
  | some c => c

/-- Python dict lookup over an association list: the value of the last
matching key wins, as in dict construction from a sequence of pairs. -/
def pyDictGet (l : List (String × α)) (k : String) : Option α :=
  l.reverse.lookup k

/-- EmbeddingService._load_embeddings: a missing file returns with the state
unchanged; any exception while reading resets the state to the empty one; a
good pair of files installs the saved index, mapping and cache. -/
def load_embeddings (disk : DiskState) (s : EmbState) : EmbState :=
  match disk with
  | .missing => s
  | .corrupt => freshMem
  | .good n mapping cache =>
      { index := some n, project_mapping := mapping, cache := some cache }

/-- EmbeddingService.generate_embeddings_for_projects: filter out hidden
projects; when no visible project remains, print and return leaving every
field of self and the disk untouched; otherwise build the index, the mapping
and the cache from the visible projects and save them (_save_embeddings).
now is the timestamp at which the recency scores are computed. -/
def generate_embeddings_for_projects (now : Int) (st : SysState)
    (projects : List Project) : SysState :=
  let visible_projects := projects.filter (fun p => !p.hidden_from_search)
  let project_names := visible_projects.map (·.name)
  if project_names.isEmpty then st
  else
    let cache : Cache :=
      { projects := visible_projects.map (fun p => (p.name, p))
        project_names := project_names
        recency_scores :=
          visible_projects.map (fun p => (p.name, calculate_recency_score now p))
        quality_scores :=
          visible_projects.map (fun p => (p.name, calculate_quality_score p)) }
    { mem :=
        { index := some project_names.length
          project_mapping := project_names
          cache := some cache }
      disk := .good project_names.length project_names cache }

/-! ### Job matching (find_matching_projects) -/

/-- Result of _extract_job_information_with_gemini (or of its fallback dict
when Gemini fails); a parameter of the matcher since Gemini is an external
service. -/
structure JobInfo where
  core_technologies : List String
  secondary_technologies : List String
  technical_keywords : List String
  domain_context : String
  weighted_description : String
deriving DecidableEq

/-- One entry of the candidate_projects list built in the scoring loop.  The
rank field records the loop counter i from enumerate, that is the semantic
rank of the candidate among the search results. -/
structure Candidate where
  project : Project
  final_score : ℚ
  semantic_score : ℚ
  tech_overlap_score : ℚ
  core_tech_overlap : ℚ
  secondary_tech_overlap : ℚ
  recency_score : ℚ
  quality_score : ℚ
  rank : Nat
deriving DecidableEq

/-- Model of Python str.split() on the already lowered domain context: split
on whitespace runs, discarding empty pieces. -/
def pySplitAux : List Char → List Char → List (List Char)
  | [], cur => if cur.isEmpty then [] else [cur.reverse]
  | c :: cs, cur =>
      if isSpacePy c then
        if cur.isEmpty then pySplitAux cs [] else cur.reverse :: pySplitAux cs []
      else pySplitAux cs (c :: cur)

/-- Python str.split() with no separator argument. -/
def pySplit (s : String) : List String :=
  (pySplitAux s.data []).map (fun l => ⟨l⟩)

/-- Containment of one character list at the front of another. -/
def startsWith : List Char → List Char → Bool
  | [], _ => true
  | _ :: _, [] => false
  | a :: as, b :: bs => a = b && startsWith as bs

/-- Python substring containment (needle in haystack). -/
def containsSub (needle : List Char) : List Char → Bool
  | [] => needle.isEmpty
  | c :: cs => startsWith needle (c :: cs) || containsSub needle cs

/-- The domain relevance test of the scoring loop: the lowered domain context
is non-empty and some whitespace-separated keyword of it longer than three
characters occurs in the lowered detailed paragraph. -/
def domain_bonus_applies (job_info : JobInfo) (project : Project) : Bool :=
  let domain_context := pyLower job_info.domain_context
  domain_context ≠ "" &&
    (pySplit domain_context).any fun keyword =>
      keyword.length > 3 &&
        containsSub keyword.data (pyLower project.detailed_paragraph).data

/-- Body of the scoring loop for one non-hidden candidate: the weighted score
formula, the readme penalties, the core-overlap bonuses and the domain bonus,
in source order. -/
def mkCandidate (job_info : JobInfo) (semantic_score recency_score quality_score : ℚ)
    (project : Project) (i : Nat) : Candidate :=
  let core_tech_overlap :=
    calculate_technology_overlap_score project.technologies job_info.core_technologies
  let secondary_tech_overlap :=
    calculate_technology_overlap_score project.technologies job_info.secondary_technologies
  let tech_overlap_score := core_tech_overlap * 0.8 + secondary_tech_overlap * 0.2
  let final_score :=
    semantic_score * 0.35 + tech_overlap_score * 0.4 +
      recency_score * 0.15 + quality_score * 0.1
  let final_score :=
    if project.no_readme then final_score * 0.5
    else if project.bad_readme then final_score * 0.7
    else final_score
  let final_score :=
    if core_tech_overlap > 0.6 then final_score * 1.3
    else if core_tech_overlap > 0.3 then final_score * 1.15
    else final_score
  let final_score :=
    if domain_bonus_applies job_info project then final_score * 1.1 else final_score
  { project := project
    final_score := final_score
    semantic_score := semantic_score
    tech_overlap_score := tech_overlap_score
    core_tech_overlap := core_tech_overlap
    secondary_tech_overlap := secondary_tech_overlap
    recency_score := recency_score
    quality_score := quality_score
    rank := i }

/-- Access self.project_mapping[idx]: the mapping dict is keyed by the
integers 0..n-1, so any other idx raises KeyError. -/
def mappingGet (mapping : List String) (idx : Int) : Option String :=
  if 0 ≤ idx then mapping.get? idx.toNat else none

/-- The scoring loop over the rows (semantic_score, idx) returned by
index.search: break on idx equal to -1, raise KeyError on a bad mapping or
cache access, skip hidden projects, otherwise append the scored candidate. -/
def buildCandidates (job_info : JobInfo) (cache : Cache) (mapping : List String) :
    List (ℚ × Int) → Nat → Except String (List Candidate)
  | [], _ => .ok []
  | (semantic_score, idx) :: rest, i =>
      if idx = -1 then .ok []
      else
        match mappingGet mapping idx with
        | none => .error "KeyError: project_mapping"
        | some project_name =>
          match pyDictGet cache.projects project_name with
          | none => .error "KeyError: projects"
          | some project =>
            if project.hidden_from_search then
              buildCandidates job_info cache mapping rest (i + 1)
            else
              match pyDictGet cache.recency_scores project_name,
                    pyDictGet cache.quality_scores project_name with
              | some recency_score, some quality_score =>
                  match buildCandidates job_info cache mapping rest (i + 1) with
                  | .error e => .error e
                  | .ok cs =>
                      .ok (mkCandidate job_info semantic_score recency_score
                             quality_score project i :: cs)
              | _, _ => .error "KeyError: scores"

/-- Stable insertion of a candidate into a list sorted by descending
final_score: the inserted element, which comes earlier in the original order,
stays in front of elements with an equal score. -/
def pyInsertDesc (x : Candidate) : List Candidate → List Candidate
  | [] => [x]
  | y :: ys =>
      if x.final_score < y.final_score then y :: pyInsertDesc x ys
      else x :: y :: ys

/-- Model of candidate_projects.sort(key=lambda x: x['final_score'],
reverse=True): Python list.sort is stable and the reverse flag preserves
stability, which insertion of each earlier element in front of its equals
realizes. -/
def pySortDesc : List Candidate → List Candidate
  | [] => []
  | x :: xs => pyInsertDesc x (pySortDesc xs)

/-- Python slice l[:k]: for nonnegative k the first k elements, for negative
k all but the last -k elements, never an error. -/
def pySlice (k : Int) (l : List α) : List α :=
  l.take (if 0 ≤ k then k.toNat else ((l.length : Int) + k).toNat)

/-- The message of the RuntimeError raised when no index is available. -/
def noEmbeddingsMsg : String :=
  "No embeddings found. Please scrape GitHub repositories first."

/-- The message modelling the exception FAISS raises from
Index::search when the requested neighbour count is not positive
(FAISS_THROW_IF_NOT of k > 0); it propagates through the re-raise of
find_matching_projects. -/
def faissAssertionMsg : String :=
  "Error in void faiss::Index::search: k > 0"

/-- Body of EmbeddingService.find_matching_projects after the reload step,
over the in-memory state mem.  oracle models self.index.search applied to the
encoded job text: given search_k it yields the rows of (similarity score,
vector index); job_info is the Gemini extraction of the job description (the
normalized all_job_technologies list and the assembled job_text of the source
only feed the encoder, which the oracle absorbs). -/
def find_matching_core (oracle : Int → List (ℚ × Int)) (job_info : JobInfo)
    (mem : EmbState) (top_k : Int) : Except String (List MatchedProject) :=
  if mem.index.isNone then .error noEmbeddingsMsg
  else
    let search_k : Int := min (top_k * 3) (mem.project_mapping.length : Int)
    if search_k ≤ 0 then .error faissAssertionMsg
    else
      match buildCandidates job_info (cacheF mem.cache) mem.project_mapping
              (oracle search_k) 0 with
      | .error e => .error e
      | .ok candidate_projects =>
          let sorted := pySortDesc candidate_projects
          .ok ((pySlice top_k sorted).map fun c =>
                { project := c.project, similarity_score := c.final_score })

/-- EmbeddingService.find_matching_projects: reload the state from disk when
the index or the cache is not in memory, then run the matcher core on the
resulting in-memory state. -/
def find_matching_projects (oracle : Int → List (ℚ × Int)) (job_info : JobInfo)
    (st : SysState) (top_k : Int) : Except String (List MatchedProject) :=
  let mem :=
    if st.mem.index.isNone || st.mem.cache.isNone
    then load_embeddings st.disk st.mem else st.mem
  find_matching_core oracle job_info mem top_k

/-! ### Concrete fixtures -/

/-- A neutral visible project used as the base of the concrete scenarios. -/
def baseProject : Project :=
  { name := "alpha"
    suggested_name := none
    url := "https://example.com/alpha"
    description := "No description provided"
    readme_content := ""
    three_liner := ""
    detailed_paragraph := ""
    technologies := []
    tree := []
    bad_readme := false
    no_readme := false
    stars := 0
    forks := 0
    language := "Unknown"
    created_at := none
    updated_at := none
    hidden_from_search := false }

/-- A project with 101 stars and everything else neutral. -/
def projStars101 : Project := { baseProject with stars := 101 }

/-- A visible project whose timestamp is absent. -/
def projNoDate : Project := baseProject

/-- A project created at the unix epoch. -/
def projEpoch : Project := { baseProject with created_at := some 0 }

/-- A project hidden from the similarity search. -/
def projHidden : Project := { baseProject with name := "ghost", hidden_from_search := true }

/-- A freshly constructed service over an empty data directory. -/
def freshSys : SysState := { mem := freshMem, disk := .missing }

/-- The service state after ingesting the single visible project at time 0. -/
def builtSys : SysState := generate_embeddings_for_projects 0 freshSys [baseProject]

/-- A search oracle returning one perfect hit on vector 0. -/
def oracle1 : Int → List (ℚ × Int) := fun _ => [((1 : ℚ), (0 : Int))]

/-- A job extraction with no recognized technologies and no domain context. -/
def ji0 : JobInfo :=
  { core_technologies := []
    secondary_technologies := []
    technical_keywords := []
    domain_context := ""
    weighted_description := "anything" }

/-- The match row produced for baseProject by oracle1 and ji0. -/
def mpBase : MatchedProject := { project := baseProject, similarity_score := 21/40 }


/-- States whose in-memory cache and on-disk cache hold only projects that
are not hidden from search; every state a sequence of rebuilds produces from
a fresh service satisfies it. -/
def StateClean (st : SysState) : Prop :=
  (∀ pr ∈ (cacheF st.mem.cache).projects, pr.2.hidden_from_search = false) ∧
  (match st.disk with
   | .good _ _ c => ∀ pr ∈ c.projects, pr.2.hidden_from_search = false
   | _ => True)

/-- Descending lexicographic order on candidates: strictly larger final score
first, and at equal final scores the smaller semantic rank first.  The output
of the stable descending sort satisfies it pairwise. -/
def candLex (a b : Candidate) : Prop :=
  b.final_score < a.final_score ∨ (b.final_score = a.final_score ∧ a.rank < b.rank)

/-! ### Supporting lemmas: normalization is idempotent -/

theorem lookup_mem {α β : Type} [BEq α] [LawfulBEq α] {l : List (α × β)} {a : α} {b : β}
    (h : l.lookup a = some b) : (a, b) ∈ l := by
  induction l with
  | nil => simp [List.lookup] at h
  | cons q l ih =>
    rw [List.lookup] at h
    by_cases hq : a == q.1
    · rw [hq] at h
      injection h with h
      have hqab : q = (a, b) := by
        cases q
        simp only [Prod.mk.injEq]
        exact ⟨(eq_of_beq hq).symm, h⟩
      rw [hqab] at *
      exact List.mem_cons_self _ _
    · rw [Bool.not_eq_true] at hq
      rw [hq] at h
      exact List.mem_cons_of_mem _ (ih h)

theorem charLower_fix (c : Char) : pyCharLower (pyCharLower c) = pyCharLower c := by
  unfold pyCharLower
  cases h : lowerMap.lookup c with
  | none => simp only [Option.getD_none, h]
  | some v =>
    have hv : (c, v) ∈ lowerMap := lookup_mem h
    have hall : ∀ q ∈ lowerMap, lowerMap.lookup q.2 = none := by decide
    simp only [Option.getD_some]
    rw [hall (c, v) hv]
    rfl

theorem charLower_space (c : Char) : isSpacePy (pyCharLower c) = isSpacePy c := by
  unfold pyCharLower
  cases h : lowerMap.lookup c with
  | none => simp only [Option.getD_none]
  | some v =>
    have hv : (c, v) ∈ lowerMap := lookup_mem h
    have hall : ∀ q ∈ lowerMap, isSpacePy q.1 = false ∧ isSpacePy q.2 = false := by decide
    simp only [Option.getD_some]
    rw [(hall (c, v) hv).2]
    have hc : isSpacePy c = false := (hall (c, v) hv).1
    rw [hc]

theorem lowerChars_idem (l : List Char) : lowerChars (lowerChars l) = lowerChars l := by
  unfold lowerChars
  rw [List.map_map]
  exact List.map_congr_left fun c _ => charLower_fix c

theorem dropWhile_lowerChars (l : List Char) :
    (lowerChars l).dropWhile isSpacePy = lowerChars (l.dropWhile isSpacePy) := by
  induction l with
  | nil => rfl
  | cons c cs ih =>
    simp only [lowerChars, List.map_cons, List.dropWhile_cons, charLower_space]
    by_cases h : isSpacePy c
    · rw [h]
      simp only [if_true]
      exact ih
    · rw [Bool.not_eq_true] at h
      rw [h]
      simp [lowerChars]

theorem dropTrail_pre (l : List Char) : dropTrail l <+: l := by
  rw [← List.reverse_suffix, dropTrail, List.reverse_reverse]
  exact List.dropWhile_suffix _

theorem dropWhile_len_le (p : Char → Bool) (l : List Char) :
    (l.dropWhile p).length ≤ l.length := by
  induction l with
  | nil => simp
  | cons c cs ih =>
    rw [List.dropWhile_cons]
    by_cases h : p c
    · rw [if_pos h]
      simp
      omega
    · rw [if_neg h]

theorem dropWhile_fixed_of_pre {p : Char → Bool} {A X : List Char}
    (hA : A.dropWhile p = A) (hpre : X <+: A) : X.dropWhile p = X := by
  cases X with
  | nil => rfl
  | cons a X' =>
    obtain ⟨t, ht⟩ := hpre
    cases A with
    | nil => simp at ht
    | cons b A' =>
      rw [List.cons_append] at ht
      have hab : a = b := (List.cons.injEq _ _ _ _ ▸ ht).1
      have hpb : ¬ p b = true := by
        intro hb
        rw [List.dropWhile_cons, if_pos hb] at hA
        have hlen := congrArg List.length hA
        have hle := dropWhile_len_le p A'
        simp at hlen
        omega
      rw [List.dropWhile_cons, if_neg (hab ▸ hpb)]

theorem dropTrail_lowerChars (l : List Char) :
    dropTrail (lowerChars l) = lowerChars (dropTrail l) := by
  unfold dropTrail lowerChars
  rw [← List.map_reverse, List.map_reverse pyCharLower (List.dropWhile isSpacePy l.reverse)]
  have h := dropWhile_lowerChars l.reverse
  unfold lowerChars at h
  rw [h]

theorem stripChars_lowerChars (l : List Char) :
    stripChars (lowerChars l) = lowerChars (stripChars l) := by
  unfold stripChars
  rw [dropWhile_lowerChars, dropTrail_lowerChars]

theorem dropTrail_idem (l : List Char) : dropTrail (dropTrail l) = dropTrail l := by
  show List.rdropWhile isSpacePy (List.rdropWhile isSpacePy l) = List.rdropWhile isSpacePy l
  exact List.rdropWhile_idempotent isSpacePy l

theorem stripChars_idem (l : List Char) : stripChars (stripChars l) = stripChars l := by
  unfold stripChars
  have hA : (l.dropWhile isSpacePy).dropWhile isSpacePy = l.dropWhile isSpacePy :=
    List.dropWhile_idempotent isSpacePy l
  have h1 : (dropTrail (l.dropWhile isSpacePy)).dropWhile isSpacePy
      = dropTrail (l.dropWhile isSpacePy) :=
    dropWhile_fixed_of_pre hA (dropTrail_pre _)
  rw [h1, dropTrail_idem]

theorem stripLower_fix (s : String) :
    pyStrip (pyLower (pyStrip (pyLower s))) = pyStrip (pyLower s) := by
  unfold pyStrip pyLower
  show String.mk (stripChars (lowerChars (stripChars (lowerChars s.data))))
      = String.mk (stripChars (lowerChars s.data))
  congr 1
  rw [← stripChars_lowerChars, lowerChars_idem, stripChars_idem]

theorem normTech_idem (s : String) : normTech (normTech s) = normTech s := by
  unfold normTech
  dsimp only
  cases h : tech_normalize.lookup (pyStrip (pyLower s)) with
  | none =>
    simp only [Option.getD_none]
    rw [stripLower_fix, h]
    rfl
  | some v =>
    have hv : (pyStrip (pyLower s), v) ∈ tech_normalize := lookup_mem h
    have hall : ∀ q ∈ tech_normalize,
        pyStrip (pyLower q.2) = q.2 ∧ tech_normalize.lookup q.2 = none := by decide
    have h1 : pyStrip (pyLower v) = v := (hall _ hv).1
    have h2 : tech_normalize.lookup v = none := (hall _ hv).2
    simp only [Option.getD_some]
    rw [h1, h2]
    rfl

theorem normAux_all (ts : List String) (acc : List String)
    (hacc : ∀ t ∈ acc, normTech t = t ∧ t ≠ "") :
    ∀ t ∈ normAux ts acc, normTech t = t ∧ t ≠ "" := by
  induction ts generalizing acc with
  | nil => exact hacc
  | cons t ts ih =>
    rw [normAux]
    by_cases hg : normTech t ≠ "" ∧ normTech t ∉ acc
    · rw [if_pos hg]
      refine ih _ fun u hu => ?_
      rcases List.mem_append.mp hu with hl | hr
      · exact hacc u hl
      · rw [List.mem_singleton.mp hr]
        exact ⟨normTech_idem t, hg.1⟩
    · rw [if_neg hg]
      exact ih _ hacc

theorem normAux_nodup (ts : List String) (acc : List String) (hacc : acc.Nodup) :
    (normAux ts acc).Nodup := by
  induction ts generalizing acc with
  | nil => exact hacc
  | cons t ts ih =>
    rw [normAux]
    by_cases hg : normTech t ≠ "" ∧ normTech t ∉ acc
    · rw [if_pos hg]
      refine ih _ ?_
      simp [List.nodup_append, hacc, hg.2]
    · rw [if_neg hg]
      exact ih _ hacc

theorem normAux_fixed (ts : List String) (acc : List String)
    (hts : ∀ t ∈ ts, normTech t = t ∧ t ≠ "") (hnd : ts.Nodup)
    (hdisj : ∀ t ∈ ts, t ∉ acc) : normAux ts acc = acc ++ ts := by
  induction ts generalizing acc with
  | nil => simp [normAux]
  | cons t ts ih =>
    rw [normAux]
    have ht := hts t (List.mem_cons_self _ _)
    rw [ht.1]
    rw [if_pos ⟨ht.2, hdisj t (List.mem_cons_self _ _)⟩]
    rw [ih _ (fun u hu => hts u (List.mem_cons_of_mem _ hu)) (List.Nodup.of_cons hnd)]
    · simp
    · intro u hu
      rw [List.mem_append, List.mem_singleton]
      rintro (hua | hut)
      · exact hdisj u (List.mem_cons_of_mem _ hu) hua
      · exact (List.nodup_cons.mp hnd).1 (hut ▸ hu)

/-! ### Supporting lemmas: the stable descending sort -/

theorem mem_insertDesc {x a : Candidate} {l : List Candidate}
    (h : a ∈ pyInsertDesc x l) : a = x ∨ a ∈ l := by
  induction l with
  | nil => simpa [pyInsertDesc] using h
  | cons y ys ih =>
    rw [pyInsertDesc] at h
    by_cases hc : x.final_score < y.final_score
    · rw [if_pos hc] at h
      rcases List.mem_cons.mp h with rfl | h'
      · exact Or.inr (List.mem_cons_self _ _)
      · rcases ih h' with h'' | h''
        · exact Or.inl h''
        · exact Or.inr (List.mem_cons_of_mem _ h'')
    · rw [if_neg hc] at h
      rcases List.mem_cons.mp h with rfl | h'
      · exact Or.inl rfl
      · exact Or.inr h'

theorem mem_sortDesc {a : Candidate} {l : List Candidate}
    (h : a ∈ pySortDesc l) : a ∈ l := by
  induction l with
  | nil => simp [pySortDesc] at h
  | cons x xs ih =>
    rw [pySortDesc] at h
    rcases mem_insertDesc h with rfl | h'
    · exact List.mem_cons_self _ _
    · exact List.mem_cons_of_mem _ (ih h')

theorem insertDesc_sorted (x : Candidate) (l : List Candidate)
    (hl : l.Pairwise (fun a b => b.final_score ≤ a.final_score)) :
    (pyInsertDesc x l).Pairwise (fun a b => b.final_score ≤ a.final_score) := by
  induction l with
  | nil => simp [pyInsertDesc]
  | cons y ys ih =>
    rw [List.pairwise_cons] at hl
    rw [pyInsertDesc]
    by_cases hc : x.final_score < y.final_score
    · rw [if_pos hc]
      rw [List.pairwise_cons]
      refine ⟨fun b hb => ?_, ih hl.2⟩
      rcases mem_insertDesc hb with rfl | hb'
      · exact le_of_lt hc
      · exact hl.1 b hb'
    · rw [if_neg hc]
      push_neg at hc
      rw [List.pairwise_cons, List.pairwise_cons]
      refine ⟨fun b hb => ?_, hl.1, hl.2⟩
      rcases List.mem_cons.mp hb with rfl | hb'
      · exact hc
      · exact le_trans (hl.1 b hb') hc

theorem sortDesc_sorted (l : List Candidate) :
    (pySortDesc l).Pairwise (fun a b => b.final_score ≤ a.final_score) := by
  induction l with
  | nil => simp [pySortDesc]
  | cons x xs ih =>
    rw [pySortDesc]
    exact insertDesc_sorted x _ ih

theorem insertDesc_stable (x : Candidate) (l : List Candidate)
    (hl : l.Pairwise candLex) (hr : ∀ y ∈ l, x.rank < y.rank) :
    (pyInsertDesc x l).Pairwise candLex := by
  induction l with
  | nil => simp [pyInsertDesc]
  | cons y ys ih =>
    rw [List.pairwise_cons] at hl
    rw [pyInsertDesc]
    by_cases hc : x.final_score < y.final_score
    · rw [if_pos hc]
      rw [List.pairwise_cons]
      refine ⟨fun b hb => ?_, ih hl.2 fun z hz => hr z (List.mem_cons_of_mem _ hz)⟩
      rcases mem_insertDesc hb with rfl | hb'
      · exact Or.inl hc
      · exact hl.1 b hb'
    · rw [if_neg hc]
      push_neg at hc
      rw [List.pairwise_cons, List.pairwise_cons]
      refine ⟨fun b hb => ?_, hl.1, hl.2⟩
      rcases List.mem_cons.mp hb with rfl | hb'
      · rcases lt_or_eq_of_le hc with hlt | heq
        · exact Or.inl hlt
        · exact Or.inr ⟨heq, hr b (List.mem_cons_self _ _)⟩
      · rcases hl.1 b hb' with hlt | ⟨heq, _⟩
        · exact Or.inl (lt_of_lt_of_le hlt hc)
        · rcases lt_or_eq_of_le hc with hxy | hxy
          · exact Or.inl (heq ▸ hxy)
          · exact Or.inr ⟨heq.trans hxy, hr b (List.mem_cons_of_mem _ hb')⟩

theorem sortDesc_stable (l : List Candidate)
    (h : l.Pairwise (fun a b => a.rank < b.rank)) :
    (pySortDesc l).Pairwise candLex := by
  induction l with
  | nil => simp [pySortDesc]
  | cons x xs ih =>
    rw [List.pairwise_cons] at h
    rw [pySortDesc]
    exact insertDesc_stable x _ (ih h.2) fun y hy => h.1 y (mem_sortDesc hy)

/-! ### Supporting lemmas: the scoring loop and the matcher -/

theorem build_ranks (job_info : JobInfo) (cache : Cache) (mapping : List String) :
    ∀ (res : List (ℚ × Int)) (i : Nat) (cs : List Candidate),
      buildCandidates job_info cache mapping res i = .ok cs →
      (∀ a ∈ cs, i ≤ a.rank) ∧ cs.Pairwise (fun a b => a.rank < b.rank) := by
  intro res
  induction res with
  | nil =>
    intro i cs h
    rw [buildCandidates] at h
    injection h with h
    subst h
    simp
  | cons row rest ih =>
    obtain ⟨sem, idx⟩ := row
    intro i cs h
    rw [buildCandidates] at h
    by_cases hidx : idx = -1
    · rw [if_pos hidx] at h
      injection h with h
      subst h
      simp
    · rw [if_neg hidx] at h
      cases hm : mappingGet mapping idx with
      | none => rw [hm] at h; simp at h
      | some project_name =>
        rw [hm] at h
        dsimp only at h
        cases hp : pyDictGet cache.projects project_name with
        | none => rw [hp] at h; simp at h
        | some project =>
          rw [hp] at h
          dsimp only at h
          by_cases hh : project.hidden_from_search = true
          · rw [if_pos hh] at h
            have hrec := ih (i + 1) cs h
            exact ⟨fun a ha => le_trans (Nat.le_succ i) (hrec.1 a ha), hrec.2⟩
          · rw [if_neg hh] at h
            cases hr : pyDictGet cache.recency_scores project_name with
            | none => rw [hr] at h; simp at h
            | some recency =>
              cases hq : pyDictGet cache.quality_scores project_name with
              | none => rw [hr, hq] at h; simp at h
              | some quality =>
                rw [hr, hq] at h
                dsimp only at h
                cases hb : buildCandidates job_info cache mapping rest (i + 1) with
                | error e => rw [hb] at h; simp at h
                | ok cs' =>
                  rw [hb] at h
                  dsimp only at h
                  injection h with h
                  subst h
                  have hrec := ih (i + 1) cs' hb
                  constructor
                  · intro a ha
                    rcases List.mem_cons.mp ha with rfl | ha'
                    · exact Nat.le_refl _
                    · exact le_trans (Nat.le_succ i) (hrec.1 a ha')
                  · rw [List.pairwise_cons]
                    refine ⟨fun b hb' => ?_, hrec.2⟩
                    have := hrec.1 b hb'
                    show i < b.rank
                    omega

theorem build_not_hidden (job_info : JobInfo) (cache : Cache) (mapping : List String) :
    ∀ (res : List (ℚ × Int)) (i : Nat) (cs : List Candidate),
      buildCandidates job_info cache mapping res i = .ok cs →
      ∀ a ∈ cs, a.project.hidden_from_search = false := by
  intro res
  induction res with
  | nil =>
    intro i cs h
    rw [buildCandidates] at h
    injection h with h
    subst h
    simp
  | cons row rest ih =>
    obtain ⟨sem, idx⟩ := row
    intro i cs h
    rw [buildCandidates] at h
    by_cases hidx : idx = -1
    · rw [if_pos hidx] at h
      injection h with h
      subst h
      simp
    · rw [if_neg hidx] at h
      cases hm : mappingGet mapping idx with
      | none => rw [hm] at h; simp at h
      | some project_name =>
        rw [hm] at h
        dsimp only at h
        cases hp : pyDictGet cache.projects project_name with
        | none => rw [hp] at h; simp at h
        | some project =>
          rw [hp] at h
          dsimp only at h
          by_cases hh : project.hidden_from_search = true
          · rw [if_pos hh] at h
            exact ih (i + 1) cs h
          · rw [if_neg hh] at h
            cases hr : pyDictGet cache.recency_scores project_name with
            | none => rw [hr] at h; simp at h
            | some recency =>
              cases hq : pyDictGet cache.quality_scores project_name with
              | none => rw [hr, hq] at h; simp at h
              | some quality =>
                rw [hr, hq] at h
                dsimp only at h
                cases hb : buildCandidates job_info cache mapping rest (i + 1) with
                | error e => rw [hb] at h; simp at h
                | ok cs' =>
                  rw [hb] at h
                  dsimp only at h
                  injection h with h
                  subst h
                  intro a ha
                  rcases List.mem_cons.mp ha with rfl | ha'
                  · show (mkCandidate job_info sem recency quality project i).project.hidden_from_search = false
                    rw [Bool.not_eq_true] at hh
                    exact hh
                  · exact ih (i + 1) cs' hb a ha'

theorem core_ok_elim {oracle : Int → List (ℚ × Int)} {job_info : JobInfo}
    {mem : EmbState} {k : Int} {l : List MatchedProject}
    (h : find_matching_core oracle job_info mem k = .ok l) :
    0 < k ∧ ∃ cands : List Candidate,
      buildCandidates job_info (cacheF mem.cache) mem.project_mapping
          (oracle (min (k * 3) (mem.project_mapping.length : Int))) 0 = .ok cands ∧
      l = (pySlice k (pySortDesc cands)).map fun c =>
            { project := c.project, similarity_score := c.final_score } := by
  rw [find_matching_core] at h
  dsimp only at h
  split at h
  · simp at h
  · split at h
    · simp at h
    · rename_i hks
      split at h
      · simp at h
      · rename_i cands hb
        injection h with h
        refine ⟨?_, cands, hb, h.symm⟩
        rw [not_le] at hks
        have h3 : (0 : Int) < k * 3 := lt_of_lt_of_le hks (min_le_left _ _)
        omega

theorem find_ok_elim {oracle : Int → List (ℚ × Int)} {job_info : JobInfo}
    {st : SysState} {k : Int} {l : List MatchedProject}
    (h : find_matching_projects oracle job_info st k = .ok l) :
    0 < k ∧ ∃ (mem : EmbState) (cands : List Candidate),
      buildCandidates job_info (cacheF mem.cache) mem.project_mapping
          (oracle (min (k * 3) (mem.project_mapping.length : Int))) 0 = .ok cands ∧
      l = (pySlice k (pySortDesc cands)).map fun c =>
            { project := c.project, similarity_score := c.final_score } := by
  rw [find_matching_projects] at h
  rcases core_ok_elim h with ⟨hk, cands, hb, hl⟩
  exact ⟨hk, _, cands, hb, hl⟩

theorem pySlice_len_le {α : Type} (k : Int) (hk : 0 ≤ k) (l : List α) :
    ((pySlice k l).length : Int) ≤ k := by
  rw [pySlice, if_pos hk]
  rw [List.length_take]
  have h1 : min k.toNat l.length ≤ k.toNat := Nat.min_le_left _ _
  omega

/-! ### Claims -/

/-- Claim C9: normalizeTechnologies is idempotent: applying
_normalize_technologies twice yields the same list as applying it once, for
every input sequence. -/
theorem normalize_technologies_idempotent (x : List String) :
    normalize_technologies (normalize_technologies x) = normalize_technologies x := by
  unfold normalize_technologies
  have hall := normAux_all x [] (by simp)
  have hnd := normAux_nodup x [] List.nodup_nil
  rw [normAux_fixed (normAux x []) [] hall hnd (by simp)]
  simp

/-- Claim C1: the quality score of a project with 101 stars.  The claim and
the specification require the highest-qualifying stars tier, a multiplier of
1.6; the code tests the tiers in ascending order with if/elif, so the
stars greater than 10 branch fires with 1.2 and the 1.4 and 1.6 branches are
unreachable (likewise for the forks and technology-count chains).  The
theorem evaluates the code and the specification formula at the failing
input. -/
theorem quality_score_tier_bug :
    calculate_quality_score projStars101 = 1.2 ∧
    qualityScore_spec projStars101 = 1.6 ∧
    calculate_quality_score projStars101 ≠ qualityScore_spec projStars101 := by
  refine ⟨?_, ?_, ?_⟩ <;>
    norm_num [calculate_quality_score, qualityScore_spec, projStars101, baseProject]

/-- Counterexample for claim C6: the absent-timestamp default is 0.5, but a
project older than 730 days scores 0.2, which is below the default, so the
result does not always lie in the interval from the default to 1.0. -/
theorem recency_band_cex :
    calculate_recency_score 0 projNoDate = 0.5 ∧
    calculate_recency_score (731 * 86400) projEpoch = 0.2 ∧
    ¬ (0.5 : ℚ) ≤ calculate_recency_score (731 * 86400) projEpoch := by
  refine ⟨rfl, ?_, ?_⟩ <;>
    norm_num [calculate_recency_score, projEpoch, baseProject, Int.fdiv]

/-- Claim C6 as amended: recencyScore is the step function of the floored age
in days, an absent timestamp yields the fixed default 0.5, which lies in the
0.1 to 0.5 band, and the result always lies in the interval from 0.2 (the
value of the oldest tier, which is below the 0.5 default) to 1.0. -/
theorem recency_amended :
    (∀ (now : Int) (p : Project), p.created_at = none →
        calculate_recency_score now p = 0.5) ∧
    ((0.1 : ℚ) ≤ 0.5 ∧ (0.5 : ℚ) ≤ 0.5) ∧
    (∀ (now : Int) (p : Project) (t : Int), p.created_at = some t →
        calculate_recency_score now p = recencyStep_spec (Int.fdiv (now - t) 86400)) ∧
    (∀ (now : Int) (p : Project),
        0.2 ≤ calculate_recency_score now p ∧ calculate_recency_score now p ≤ 1) := by
  refine ⟨?_, by norm_num, ?_, ?_⟩
  · intro now p hp
    rw [calculate_recency_score, hp]
  · intro now p t hp
    rw [calculate_recency_score, hp, recencyStep_spec]
  · intro now p
    rw [calculate_recency_score]
    cases p.created_at with
    | none => norm_num
    | some t =>
      dsimp only
      split_ifs <;> norm_num

/-- Witness for claim C6: the amended theorem applied to a project without a
timestamp and to a project created at the epoch, 731 days before the
reference time. -/
theorem recency_amended_witness :
    calculate_recency_score 0 projNoDate = 0.5 ∧
    calculate_recency_score (731 * 86400) projEpoch = recencyStep_spec 731 := by
  constructor
  · exact recency_amended.1 0 projNoDate rfl
  · have h := recency_amended.2.2.1 (731 * 86400) projEpoch 0 rfl
    rw [h]
    norm_num
    rfl

/-- Counterexample for claim C4: _calculate_technology_overlap_score does not
normalize the job technologies.  A project tagged react against a job asking
for React.JS scores 0, while the formula of the claim, which normalizes both
inputs, scores 1.2. -/
theorem tech_overlap_normalization_cex :
    calculate_technology_overlap_score ["react"] ["React.JS"] = 0 ∧
    technologyOverlapScore_spec ["react"] ["React.JS"] = 1.2 ∧
    calculate_technology_overlap_score ["react"] ["React.JS"] ≠
      technologyOverlapScore_spec ["react"] ["React.JS"] := by
  have h1 : normalize_technologies ["react"] = ["react"] := by decide
  have h2 : normalize_technologies ["React.JS"] = ["react"] := by decide
  have hc : calculate_technology_overlap_score ["react"] ["React.JS"] = 0 := by
    have ha : (({"react"} : Finset String) ∩ {"React.JS"}).card = 0 := by decide
    have hb : ¬ (({"react"} : Finset String) ∩ {"React.JS"}).Nonempty := by decide
    norm_num [calculate_technology_overlap_score, h1, ha, hb, min_def]
  have hs : technologyOverlapScore_spec ["react"] ["React.JS"] = 1.2 := by
    have ha : (({"react"} : Finset String) ∩ {"react"}).card = 1 := by decide
    have hb : ({"react"} : Finset String).card = 1 := by decide
    norm_num [technologyOverlapScore_spec, h1, h2, ha, hb, min_def]
  refine ⟨hc, hs, ?_⟩
  rw [hc, hs]
  norm_num

/-- Claim C4 as amended: the overlap score always lies in the interval from 0
to 1.5, the deduplication, bonus and clamp behave as the claim states, but
only the project technologies are normalized inside the function; the
claimed formula with both inputs normalized is obtained exactly when the job
technologies are already in normalized form. -/
theorem tech_overlap_amended :
    (∀ pt jt : List String, 0 ≤ calculate_technology_overlap_score pt jt ∧
        calculate_technology_overlap_score pt jt ≤ 1.5) ∧
    (∀ pt jt : List String, normalize_technologies jt = jt →
        calculate_technology_overlap_score pt jt = technologyOverlapScore_spec pt jt) := by
  constructor
  · intro pt jt
    rw [calculate_technology_overlap_score]
    dsimp only
    split_ifs with h1 h2 h3
    · norm_num
    · norm_num
    · refine ⟨le_min (by positivity) (by norm_num), min_le_right _ _⟩
    · refine ⟨le_min (by positivity) (by norm_num), min_le_right _ _⟩
  · intro pt jt hjt
    rw [calculate_technology_overlap_score, technologyOverlapScore_spec, hjt]
    dsimp only
    by_cases hje : jt.isEmpty
    · rw [List.isEmpty_iff] at hje
      subst hje
      simp
    · by_cases hpe : pt.isEmpty
      · rw [List.isEmpty_iff] at hpe
        subst hpe
        have hjn : jt.toFinset.card ≠ 0 := by
          rw [List.isEmpty_iff] at hje
          simp only [ne_eq, Finset.card_eq_zero, List.toFinset_eq_empty_iff]
          exact hje
        rw [if_pos (by simp [hje]), if_neg hjn]
        have hn0 : normalize_technologies ([] : List String) = [] := rfl
        rw [hn0]
        norm_num [min_def]
      · have hjn : jt.toFinset.card ≠ 0 := by
          rw [List.isEmpty_iff] at hje  -- hje becomes jt ≠ []? careful
          simp only [ne_eq, Finset.card_eq_zero, List.toFinset_eq_empty_iff]
          exact hje
        rw [if_neg (by simp [hje, hpe]), if_neg hjn]

/-- Witness for claim C4: the amended theorem applied to concrete technology
lists; the job list consisting of the single name python is already
normalized, so the code agrees with the both-normalized formula there. -/
theorem tech_overlap_amended_witness :
    0 ≤ calculate_technology_overlap_score ["js"] ["python"] ∧
    calculate_technology_overlap_score ["js"] ["python"] =
      technologyOverlapScore_spec ["js"] ["python"] :=
  ⟨(tech_overlap_amended.1 ["js"] ["python"]).1,
   tech_overlap_amended.2 ["js"] ["python"] (by decide)⟩

/-- Claim C10: when every project of the rebuild input is hidden (or the list
is empty), generate_embeddings_for_projects returns before touching the
index, the mapping, the cache or the disk, so matching afterwards behaves
exactly as before the rebuild. -/
theorem empty_visible_rebuild_noop :
    ∀ (now : Int) (st : SysState) (ps : List Project),
      ps.filter (fun p => !p.hidden_from_search) = [] →
      generate_embeddings_for_projects now st ps = st ∧
      ∀ (oracle : Int → List (ℚ × Int)) (ji : JobInfo) (k : Int),
        find_matching_projects oracle ji (generate_embeddings_for_projects now st ps) k
          = find_matching_projects oracle ji st k := by
  intro now st ps h
  have hg : generate_embeddings_for_projects now st ps = st := by
    rw [generate_embeddings_for_projects, h]
    rfl
  exact ⟨hg, fun oracle ji k => by rw [hg]⟩

/-- Witness for claim C10: rebuilding an already-built service with a list
holding one hidden project leaves the state untouched. -/
theorem empty_visible_rebuild_noop_witness :
    generate_embeddings_for_projects 0 builtSys [projHidden] = builtSys :=
  (empty_visible_rebuild_noop 0 builtSys [projHidden] (by decide)).1

/-- Counterexample for claim C2: on a fresh service, a rebuild with the empty
project list leaves the no-index state in place, and the next findMatches
raises the no-embeddings RuntimeError instead of returning the empty list. -/
theorem empty_rebuild_cex :
    find_matching_projects oracle1 ji0 (generate_embeddings_for_projects 0 freshSys []) 5
      = .error noEmbeddingsMsg ∧
    find_matching_projects oracle1 ji0 (generate_embeddings_for_projects 0 freshSys []) 5
      ≠ .ok [] := by
  have h : find_matching_projects oracle1 ji0
      (generate_embeddings_for_projects 0 freshSys []) 5 = .error noEmbeddingsMsg := rfl
  refine ⟨h, ?_⟩
  rw [h]
  simp

/-- Claim C2 as amended: a rebuild with an empty or all-hidden project list
succeeds as a no-op that does not touch the index, and on a fresh service a
subsequent findMatches raises the no-embeddings error rather than returning
the empty sequence. -/
theorem empty_rebuild_amended :
    ∀ (now : Int) (ps : List Project),
      ps.filter (fun p => !p.hidden_from_search) = [] →
      generate_embeddings_for_projects now freshSys ps = freshSys ∧
      ∀ (oracle : Int → List (ℚ × Int)) (ji : JobInfo) (k : Int),
        find_matching_projects oracle ji
          (generate_embeddings_for_projects now freshSys ps) k
          = .error noEmbeddingsMsg := by
  intro now ps h
  have hg : generate_embeddings_for_projects now freshSys ps = freshSys := by
    rw [generate_embeddings_for_projects, h]
    rfl
  refine ⟨hg, fun oracle ji k => ?_⟩
  rw [hg]
  rfl

/-- Witness for claim C2: the amended theorem applied to the empty project
list on the fresh service. -/
theorem empty_rebuild_amended_witness :
    generate_embeddings_for_projects 0 freshSys [] = freshSys ∧
    find_matching_projects oracle1 ji0 (generate_embeddings_for_projects 0 freshSys []) 7
      = .error noEmbeddingsMsg := by
  have h := empty_rebuild_amended 0 [] rfl
  exact ⟨h.1, h.2 oracle1 ji0 7⟩

/-- Counterexample for claim C3: with one indexed project, findMatches with
topK of 0 (and likewise any negative topK, here -1) propagates the FAISS
assertion failure on a non-positive search size instead of returning the
empty sequence without error. -/
theorem topk_nonpositive_cex :
    find_matching_projects oracle1 ji0 builtSys 0 = .error faissAssertionMsg ∧
    find_matching_projects oracle1 ji0 builtSys (-1) = .error faissAssertionMsg := by
  constructor <;> rfl

/-- Claim C3 as amended: whenever findMatches returns a sequence, its length
is at most max of topK and 0; but for topK at most 0 the call always raises
(the RuntimeError when no index is loaded, or the FAISS assertion on a
non-positive search size) instead of returning an empty sequence. -/
theorem topk_bound_amended :
    (∀ (oracle : Int → List (ℚ × Int)) (ji : JobInfo) (st : SysState) (k : Int)
        (l : List MatchedProject),
        find_matching_projects oracle ji st k = .ok l → (l.length : Int) ≤ max k 0) ∧
    (∀ (oracle : Int → List (ℚ × Int)) (ji : JobInfo) (st : SysState) (k : Int),
        k ≤ 0 → ∀ l : List MatchedProject,
          find_matching_projects oracle ji st k ≠ .ok l) := by
  constructor
  · intro oracle ji st k l h
    rcases find_ok_elim h with ⟨hk, mem, cands, hb, hl⟩
    have hlen := pySlice_len_le k (le_of_lt hk) (pySortDesc cands)
    rw [hl, List.length_map]
    exact le_trans hlen (le_max_left _ _)
  · intro oracle ji st k hk l h
    rcases find_ok_elim h with ⟨hk', _, _, _, _⟩
    omega

/-- Witness for claim C3: the bound applied to a concrete successful search
returning one project, and the error applied at topK equal to 0. -/
theorem topk_bound_amended_witness :
    (([mpBase] : List MatchedProject).length : Int) ≤ max 1 0 ∧
    find_matching_projects oracle1 ji0 builtSys 0 ≠ .ok [] := by
  constructor
  · refine topk_bound_amended.1 oracle1 ji0 builtSys 1 [mpBase] ?_
    norm_num [find_matching_projects, find_matching_core, builtSys,
      generate_embeddings_for_projects, freshSys, freshMem, baseProject, cacheF,
      oracle1, ji0, buildCandidates, mappingGet, pyDictGet, mkCandidate,
      calculate_technology_overlap_score, calculate_recency_score,
      calculate_quality_score, domain_bonus_applies, pyLower, lowerChars,
      pySortDesc, pyInsertDesc, pySlice, mpBase, List.lookup, min_def]
  · exact topk_bound_amended.2 oracle1 ji0 builtSys 0 (by norm_num) []

/-- Claim C7: the output of findMatches is sorted by final score in
descending order with no adjacent violation, the candidates enter the sort in
strictly increasing semantic rank, and the stable descending sort orders any
such list lexicographically, so candidates with equal final scores keep the
earlier-semantic-rank-first order. -/
theorem find_matches_sorted_stable :
    (∀ (oracle : Int → List (ℚ × Int)) (ji : JobInfo) (st : SysState) (k : Int)
        (l : List MatchedProject),
        find_matching_projects oracle ji st k = .ok l →
        l.Chain' (fun a b => b.similarity_score ≤ a.similarity_score)) ∧
    (∀ (ji : JobInfo) (cache : Cache) (mapping : List String)
        (res : List (ℚ × Int)) (i : Nat) (cs : List Candidate),
        buildCandidates ji cache mapping res i = .ok cs →
        cs.Pairwise (fun a b => a.rank < b.rank)) ∧
    (∀ cs : List Candidate, cs.Pairwise (fun a b => a.rank < b.rank) →
        (pySortDesc cs).Pairwise candLex) := by
  refine ⟨?_, ?_, sortDesc_stable⟩
  · intro oracle ji st k l h
    rcases find_ok_elim h with ⟨hk, mem, cands, hb, hl⟩
    have hsub : List.Sublist (pySlice k (pySortDesc cands)) (pySortDesc cands) := by
      rw [pySlice]
      exact List.take_sublist _ _
    have ht := (sortDesc_sorted cands).sublist hsub
    have hmap : ((pySlice k (pySortDesc cands)).map fun c =>
        ({ project := c.project, similarity_score := c.final_score } : MatchedProject)).Chain'
        (fun a b => b.similarity_score ≤ a.similarity_score) := by
      refine List.Pairwise.chain' ?_
      rw [List.pairwise_map]
      exact ht
    rw [hl]
    exact hmap
  · intro ji cache mapping res i cs h
    exact (build_ranks ji cache mapping res i cs h).2

/-- Witness for claim C7: the sortedness statement applied to the concrete
one-project search. -/
theorem find_matches_sorted_stable_witness :
    ([mpBase] : List MatchedProject).Chain'
      (fun a b => b.similarity_score ≤ a.similarity_score) := by
  refine find_matches_sorted_stable.1 oracle1 ji0 builtSys 1 [mpBase] ?_
  norm_num [find_matching_projects, find_matching_core, builtSys,
    generate_embeddings_for_projects, freshSys, freshMem, baseProject, cacheF,
    oracle1, ji0, buildCandidates, mappingGet, pyDictGet, mkCandidate,
    calculate_technology_overlap_score, calculate_recency_score,
    calculate_quality_score, domain_bonus_applies, pyLower, lowerChars,
    pySortDesc, pyInsertDesc, pySlice, mpBase, List.lookup, min_def]

/-- Claim C5: findMatches never returns a hidden project, whatever the state,
because the scoring loop skips projects whose hidden flag is set; moreover
rebuilds preserve the invariant that the in-memory and on-disk caches hold
only non-hidden projects, and a fresh service satisfies the invariant, so no
sequence of rebuilds followed by a findMatches ever surfaces a hidden
project. -/
theorem hidden_exclusion :
    (∀ (oracle : Int → List (ℚ × Int)) (ji : JobInfo) (st : SysState) (k : Int)
        (l : List MatchedProject) (m : MatchedProject),
        find_matching_projects oracle ji st k = .ok l → m ∈ l →
        m.project.hidden_from_search = false) ∧
    (∀ (now : Int) (st : SysState) (ps : List Project),
        StateClean st → StateClean (generate_embeddings_for_projects now st ps)) ∧
    StateClean freshSys := by
  refine ⟨?_, ?_, ?_⟩
  · intro oracle ji st k l m h hm
    rcases find_ok_elim h with ⟨hk, mem, cands, hb, hl⟩
    rw [hl] at hm
    rcases List.mem_map.mp hm with ⟨c, hc, rfl⟩
    have hsub : List.Sublist (pySlice k (pySortDesc cands)) (pySortDesc cands) := by
      rw [pySlice]
      exact List.take_sublist _ _
    exact build_not_hidden ji _ _ _ 0 cands hb c (mem_sortDesc (hsub.subset hc))
  · intro now st ps hcl
    rw [generate_embeddings_for_projects]
    dsimp only
    split_ifs with hni
    · exact hcl
    · constructor
      · intro pr hpr
        dsimp only [cacheF] at hpr
        rcases List.mem_map.mp hpr with ⟨p, hp, rfl⟩
        have := (List.mem_filter.mp hp).2
        dsimp only
        rwa [Bool.not_eq_eq_eq_not, Bool.not_true] at this
      · intro pr hpr
        rcases List.mem_map.mp hpr with ⟨p, hp, rfl⟩
        have := (List.mem_filter.mp hp).2
        dsimp only
        rwa [Bool.not_eq_eq_eq_not, Bool.not_true] at this
  · exact ⟨fun pr hpr => absurd hpr (List.not_mem_nil pr), trivial⟩

/-- Witness for claim C5: the hidden-exclusion statement applied to the
concrete one-project search result. -/
theorem hidden_exclusion_witness :
    mpBase.project.hidden_from_search = false := by
  refine hidden_exclusion.1 oracle1 ji0 builtSys 1 [mpBase] mpBase ?_
      (List.mem_singleton.mpr rfl)
  norm_num [find_matching_projects, find_matching_core, builtSys,
    generate_embeddings_for_projects, freshSys, freshMem, baseProject, cacheF,
    oracle1, ji0, buildCandidates, mappingGet, pyDictGet, mkCandidate,
    calculate_technology_overlap_score, calculate_recency_score,
    calculate_quality_score, domain_bonus_applies, pyLower, lowerChars,
    pySortDesc, pyInsertDesc, pySlice, mpBase, List.lookup, min_def]

/-- Claim C8: a findMatches on a state with no index in memory and nothing
readable on disk raises the caller-facing no-embeddings RuntimeError, a
corrupt disk is recovered by _load_embeddings falling back to the empty state
so the next findMatches raises the same error, and a missing file leaves the
in-memory state untouched. -/
theorem not_indexed_and_corrupt_fallback :
    (∀ (oracle : Int → List (ℚ × Int)) (ji : JobInfo) (k : Int) (m : EmbState),
        m.index = none →
        find_matching_projects oracle ji { mem := m, disk := .missing } k
          = .error noEmbeddingsMsg) ∧
    (∀ (oracle : Int → List (ℚ × Int)) (ji : JobInfo) (k : Int) (m : EmbState),
        m.index = none ∨ m.cache = none →
        find_matching_projects oracle ji { mem := m, disk := .corrupt } k
          = .error noEmbeddingsMsg) ∧
    (∀ s : EmbState, load_embeddings .corrupt s = freshMem) ∧
    (∀ s : EmbState, load_embeddings .missing s = s) := by
  refine ⟨?_, ?_, fun s => rfl, fun s => rfl⟩
  · intro oracle ji k m hm
    rw [find_matching_projects]
    simp [hm, load_embeddings, find_matching_core]
  · intro oracle ji k m hm
    rw [find_matching_projects]
    rcases hm with hm | hm <;>
      simp [hm, load_embeddings, find_matching_core, freshMem]

/-- Witness for claim C8: the two error statements applied to the fresh
in-memory state over a missing and over a corrupt data directory. -/
theorem not_indexed_fallback_witness :
    find_matching_projects oracle1 ji0 { mem := freshMem, disk := .missing } 5
      = .error noEmbeddingsMsg ∧
    find_matching_projects oracle1 ji0 { mem := freshMem, disk := .corrupt } 5
      = .error noEmbeddingsMsg :=
  ⟨not_indexed_and_corrupt_fallback.1 oracle1 ji0 5 freshMem rfl,
   not_indexed_and_corrupt_fallback.2.1 oracle1 ji0 5 freshMem (Or.inl rfl)⟩
